import Mathlib

/-!
Verification of the WallyAI simulation-and-search core (backtesting engine,
performance analyzer, strategy optimizer, portfolio rebalancer).

The TypeScript sources are shallowly embedded: JavaScript numbers are
modelled by `ℚ`, except where JavaScript's exceptional values (NaN, ±Infinity,
division by zero, out-of-bounds indexing returning `undefined`) are observable;
those spots use the `JSNum` type below.  JavaScript `Map` and plain objects are
modelled by association lists in insertion order (`Object.entries` / `Map`
iteration order is insertion order).  Ambient effects (`Date.now()`,
`Math.random()`, `Math.sqrt`, local-midnight bucketing via `setHours`) are
modelled as explicit parameters of the embedded functions.
-/

/-- JavaScript number results that can be NaN or infinite.  Plain finite
values are `num q`. -/
inductive JSNum where
  | num (q : ℚ)
  | posInf
  | negInf
  | nan
deriving DecidableEq

/-- JavaScript division `a / b` of finite numbers: division by zero yields
±Infinity, and `0 / 0` yields NaN. -/
def jsDiv (a b : ℚ) : JSNum :=
  if b = 0 then (if a = 0 then .nan else if 0 < a then .posInf else .negInf)
  else .num (a / b)

/-- JavaScript `Math.max` on two arguments: NaN-propagating. -/
def jsMax : JSNum → JSNum → JSNum
  | .nan, _ => .nan
  | _, .nan => .nan
  | .posInf, _ => .posInf
  | _, .posInf => .posInf
  | .negInf, b => b
  | a, .negInf => a
  | .num a, .num b => .num (max a b)

/-- `x` is a finite value in the closed unit interval. -/
def inUnitInterval (x : JSNum) : Prop := ∃ q, x = JSNum.num q ∧ 0 ≤ q ∧ q ≤ 1

/-! ## Data model (src/types/index.ts) -/

/-- One historical bar of `MarketData`.  (`open` is a Lean keyword, hence
`open_`.) -/
structure MarketData where
  timestamp : ℤ
  open_ : ℚ
  high : ℚ
  low : ℚ
  close : ℚ
  volume : ℚ
deriving DecidableEq

inductive TradeType where
  | buy
  | sell
deriving DecidableEq

/-- A `Trade`; the `metadata` object is flattened into its two string
fields. -/
structure Trade where
  id : String
  asset : String
  type : TradeType
  amount : ℚ
  price : ℚ
  timestamp : ℤ
  strategy : String
  execution : String
deriving DecidableEq

/-- A `PortfolioAnalysis` snapshot; `assetAllocation` is the object
asset → number in key-insertion order. -/
structure PortfolioAnalysis where
  timestamp : ℤ
  totalValue : ℚ
  assetAllocation : List (String × ℚ)
  riskScore : ℚ
  recommendations : List String
deriving DecidableEq

inductive Trend where
  | bullish
  | bearish
  | neutral
deriving DecidableEq

/-- The fields of `MarketInsight` read by the core (the remaining fields are
untyped payloads never consulted by the code under verification). -/
structure MarketInsight where
  trend : Trend
  confidence : ℚ
deriving DecidableEq

/-! ## PerformanceAnalyzer (src/analysis/PerformanceAnalyzer.ts)

The analyzer's state is its initial snapshot (seeding `portfolioHistory` and
`initialPortfolioValue`), the accumulated trades, and `startTime` (the wall
clock at construction).  Each metric below is a function of that state. -/

/-- `calculateTradeProfit(entry, exit)`. -/
def calculateTradeProfit (entry ex : Trade) : ℚ :=
  match entry.type, ex.type with
  | .buy, .sell => (ex.price - entry.price) * entry.amount
  | .sell, .buy => (entry.price - ex.price) * entry.amount
  | _, _ => 0

/-- The loop of `calculateWinRate`: counts indices `i ≥ 1` whose trade has the
same asset as trade `i − 1` and realizes positive profit against it. -/
def countWins : List Trade → ℕ
  | a :: b :: rest =>
      (if a.asset = b.asset ∧ 0 < calculateTradeProfit a b then 1 else 0) +
        countWins (b :: rest)
  | _ => 0

/-- `calculateWinRate()`. -/
def calculateWinRate (trades : List Trade) : ℚ :=
  if trades.length = 0 then 0 else (countWins trades : ℚ) / (trades.length : ℚ)

/-- `calculateTotalReturn()`: `portfolioHistory` is `initial :: rest`, so the
latest value is `rest.getLastD initialValue`. -/
def calculateTotalReturn (initialValue : ℚ) (rest : List ℚ) : ℚ :=
  (rest.getLastD initialValue - initialValue) / initialValue

/-- One iteration of the `calculateMaxDrawdown` loop: raise the running peak,
then fold in `(peak − value) / peak` (JS division: NaN at a zero peak with a
zero value). -/
def drawdownStep (st : ℚ × JSNum) (v : ℚ) : ℚ × JSNum :=
  let peak := if st.1 < v then v else st.1
  (peak, jsMax st.2 (jsDiv (peak - v) peak))

/-- `calculateMaxDrawdown()` over the history `h0 :: rest` (the history is
never empty: the constructor seeds it with the initial snapshot, whose value
is `h0`, the initial peak). -/
def calculateMaxDrawdown (h0 : ℚ) (rest : List ℚ) : JSNum :=
  ((h0 :: rest).foldl drawdownStep (h0, JSNum.num 0)).2

/-- `aggregateDailyPortfolioValues()`: `day` models
`new Date(t).setHours(0,0,0,0)` (start of local calendar day); `history` is
the full `portfolioHistory` as (timestamp, totalValue) pairs. -/
def aggregateDailyPortfolioValues (day : ℤ → ℤ) (startTime : ℤ)
    (initialValue : ℚ) (history : List (ℤ × ℚ)) : List ℚ :=
  let st := history.foldl
    (fun (st : ℤ × ℚ × List ℚ) p =>
      if st.1 < day p.1 then (day p.1, p.2, st.2.2 ++ [st.2.1])
      else (st.1, p.2, st.2.2))
    (day startTime, initialValue, [])
  st.2.2 ++ [st.2.1]

/-- The loop of `calculateDailyReturns()` over precomputed daily values. -/
def calculateDailyReturns (dailyValues : List ℚ) : List ℚ :=
  (dailyValues.zip dailyValues.tail).map (fun p => (p.2 - p.1) / p.1)

/-- `calculateStandardDeviation(values)`, with `Math.sqrt` supplied as
`sqrtFn` (exact float square roots are not rational). -/
def calculateStandardDeviation (sqrtFn : ℚ → ℚ) (values : List ℚ) : ℚ :=
  let mean := values.sum / (values.length : ℚ)
  let squareDiffs := values.map (fun v => (v - mean) * (v - mean))
  sqrtFn (squareDiffs.sum / (values.length : ℚ))

/-- `calculateSharpeRatio()` as a function of the daily-returns series.  (The
source also computes an `excessReturns` array that it never reads; it is
omitted.) -/
def calculateSharpeRatio (sqrtFn : ℚ → ℚ) (returns : List ℚ) : ℚ :=
  if returns.length = 0 then 0
  else
    let averageReturn := returns.sum / (returns.length : ℚ)
    let riskFreeRate : ℚ := 2 / 100 / 365
    let standardDeviation := calculateStandardDeviation sqrtFn returns
    if standardDeviation = 0 then 0
    else (averageReturn - riskFreeRate) / standardDeviation

/-- `calculateValueAtRisk()` at the default confidence 0.95, as a function of
the daily-returns series.  Indexing past the end of the sorted array yields
`undefined`, and negating `undefined` yields NaN. -/
def calculateValueAtRisk (returns : List ℚ) : JSNum :=
  let sortedReturns := returns.insertionSort (· ≤ ·)
  let index := (⌊(returns.length : ℚ) * (1 - 95 / 100)⌋).toNat
  match sortedReturns.get? index with
  | some r => .num (-r)
  | none => .nan

/-- The filter predicate `r < -varValue` of `calculateExpectedShortfall`,
where `varValue` may be NaN (every comparison with NaN is false). -/
def belowNegatedVar (r : ℚ) : JSNum → Bool
  | .num v => decide (r < -v)
  | .posInf => true
  | .negInf => false
  | .nan => false

/-- `calculateExpectedShortfall()` at the default confidence 0.95:
`-sum(tail) / tail.length` is `(-0) / 0 = NaN` when the tail is empty. -/
def calculateExpectedShortfall (returns : List ℚ) : JSNum :=
  let varValue := calculateValueAtRisk returns
  let tailReturns := returns.filter (fun r => belowNegatedVar r varValue)
  jsDiv (-(tailReturns.sum)) (tailReturns.length : ℚ)

/-! ## BacktestingEngine (src/backtesting/BacktestingEngine.ts)

Pluggable collaborators and ambient effects are explicit parameters.
`analyze` models the `MarketAnalyzer` collaborator as a function of the
asset and its visible (point-in-time filtered) series — `updateMarketData`
followed by `analyzeMarket`; `none` models a thrown analysis error, which
`analyzeMarkets` catches and skips.  `canOpenPosition` is the `RiskManager`
risk gate (its class is not part of the core sources; only this boolean
query is consulted).  `now` is the ambient wall clock `Date.now()`,
`tradeId` the ambient id produced by `generateTradeId` (wall clock plus
`Math.random`), `sqrtFn` is `Math.sqrt`, `day`/`startTime` are the
analyzer's calendar bucketing and construction time. -/
structure BacktestEnv (I : Type) where
  analyze : String → List MarketData → Option I
  canOpenPosition : String → ℚ → ℚ → Bool
  tradeId : String
  now : ℤ
  sqrtFn : ℚ → ℚ
  day : ℤ → ℤ
  startTime : ℤ

/-- `getTimeRange(startDate, endDate)`: the sorted set of distinct timestamps
across all assets that fall within the window. -/
def getTimeRange (data : List (String × List MarketData))
    (startDate endDate : ℤ) : List ℤ :=
  (((data.flatMap (fun p => p.2.map (·.timestamp))).filter
      (fun t => decide (startDate ≤ t) && decide (t ≤ endDate))).dedup).insertionSort (· ≤ ·)

/-- `getDataUpToTime(data, time)`. -/
def getDataUpToTime (series : List MarketData) (time : ℤ) : List MarketData :=
  series.filter (fun d => decide (d.timestamp ≤ time))

/-- `getCurrentData(asset)`: note the pricing timeline is
`getTimeRange(0, Date.now())` — bounded by the ambient wall clock, not by the
backtest window — indexed by the main loop's `currentTimeIndex`.  An
out-of-range index gives `timeRange[i] === undefined`, and
`find(d => d.timestamp === undefined)` then returns `undefined`. -/
def getCurrentData (data : List (String × List MarketData)) (now : ℤ)
    (currentTimeIndex : ℕ) (asset : String) : Option MarketData :=
  match data.lookup asset with
  | none => none
  | some series =>
    match (getTimeRange data 0 now).get? currentTimeIndex with
    | none => none
    | some t => series.find? (fun d => d.timestamp == t)

/-- `calculateTradeAmount(asset, insight, price)`: the built-in sizing
function returns 0 unconditionally. -/
def calculateTradeAmount {I : Type} (asset : String) (insight : I)
    (price : ℚ) : ℚ :=
  0

/-- `analyzeMarkets()` at the current simulated time: one insight per asset
of the historical-data map, skipping assets whose analysis throws. -/
def analyzeMarkets {I : Type} (env : BacktestEnv I)
    (data : List (String × List MarketData)) (currentTime : ℤ) :
    List (String × I) :=
  data.filterMap (fun p =>
    (env.analyze p.1 (getDataUpToTime p.2 currentTime)).map (fun i => (p.1, i)))

/-- `generateTrades(marketInsights)` at loop index `i`. -/
def generateTrades {I : Type} (env : BacktestEnv I)
    (data : List (String × List MarketData)) (insights : List (String × I))
    (i : ℕ) : List Trade :=
  insights.filterMap (fun p =>
    match getCurrentData data env.now i p.1 with
    | none => none
    | some currentData =>
      let price := currentData.close
      let amount := calculateTradeAmount p.1 p.2 price
      if amount ≠ 0 then
        some { id := env.tradeId
               asset := p.1
               type := if 0 < amount then .buy else .sell
               amount := |amount|
               price := price
               timestamp := currentData.timestamp
               strategy := "backtest"
               execution := "simulated" }
      else none)

/-- `calculateTotalValue()` over the current allocation: assets with no bar
exactly at the current pricing timestamp contribute nothing. -/
def calculateTotalValue (data : List (String × List MarketData)) (now : ℤ)
    (i : ℕ) (allocation : List (String × ℚ)) : ℚ :=
  (allocation.map (fun p =>
    match getCurrentData data now i p.1 with
    | some d => p.2 * d.close
    | none => 0)).sum

/-- `calculateAssetAllocation()`: assets with no bar at the pricing timestamp
are dropped from the new allocation. -/
def calculateAssetAllocation (data : List (String × List MarketData))
    (now : ℤ) (i : ℕ) (allocation : List (String × ℚ)) :
    List (String × ℚ) :=
  let totalValue := calculateTotalValue data now i allocation
  allocation.filterMap (fun p =>
    match getCurrentData data now i p.1 with
    | some d => some (p.1, p.2 * d.close / totalValue)
    | none => none)

/-- The engine's mutable state: the current portfolio, the accepted trade
history (shared with the analyzer), and the analyzer's `portfolioHistory`. -/
structure EngineState where
  currentPortfolio : PortfolioAnalysis
  trades : List Trade
  history : List PortfolioAnalysis
deriving DecidableEq

/-- One iteration of the `runBacktest` loop at index `i`, simulated time
`currentTime`: analyze markets, generate and risk-gate trades, recompute and
append the portfolio snapshot (`riskScore` and `recommendations` are the
stubbed constants). -/
def backtestStep {I : Type} (env : BacktestEnv I)
    (data : List (String × List MarketData)) (i : ℕ) (currentTime : ℤ)
    (st : EngineState) : EngineState :=
  let marketInsights := analyzeMarkets env data currentTime
  let newTrades := generateTrades env data marketInsights i
  let accepted := newTrades.filter
    (fun t => env.canOpenPosition t.asset t.amount t.price)
  let updated : PortfolioAnalysis :=
    { timestamp := currentTime
      totalValue := calculateTotalValue data env.now i
        st.currentPortfolio.assetAllocation
      assetAllocation := calculateAssetAllocation data env.now i
        st.currentPortfolio.assetAllocation
      riskScore := 0
      recommendations := [] }
  { currentPortfolio := updated
    trades := st.trades ++ accepted
    history := st.history ++ [updated] }

/-- The `for` loop of `runBacktest` over the remaining timeline, carrying the
current index. -/
def runBacktestLoop {I : Type} (env : BacktestEnv I)
    (data : List (String × List MarketData)) :
    List ℤ → ℕ → EngineState → EngineState
  | [], _, st => st
  | t :: rest, i, st =>
      runBacktestLoop env data rest (i + 1) (backtestStep env data i t st)

/-- `runBacktest(startDate, endDate)` up to the final report: reset, build
the master timeline, and step through it. -/
def runBacktestState {I : Type} (env : BacktestEnv I)
    (data : List (String × List MarketData))
    (initialPortfolio : PortfolioAnalysis) (startDate endDate : ℤ) :
    EngineState :=
  runBacktestLoop env data (getTimeRange data startDate endDate) 0
    { currentPortfolio := initialPortfolio
      trades := []
      history := [initialPortfolio] }

/-- The `PerformanceMetrics` record returned by
`performanceAnalyzer.getPerformanceMetrics()`. -/
structure PerformanceMetrics where
  totalReturn : ℚ
  winRate : ℚ
  sharpeRatio : ℚ
  maxDrawdown : JSNum
  trades : List Trade
deriving DecidableEq

/-- `getPerformanceMetrics()` of the analyzer owned by the run. -/
def getPerformanceMetrics {I : Type} (env : BacktestEnv I)
    (initialPortfolio : PortfolioAnalysis) (st : EngineState) :
    PerformanceMetrics :=
  let restValues := st.history.tail.map (·.totalValue)
  let returns := calculateDailyReturns
    (aggregateDailyPortfolioValues env.day env.startTime
      initialPortfolio.totalValue
      (st.history.map (fun p => (p.timestamp, p.totalValue))))
  { totalReturn := calculateTotalReturn initialPortfolio.totalValue restValues
    winRate := calculateWinRate st.trades
    sharpeRatio := calculateSharpeRatio env.sqrtFn returns
    maxDrawdown := calculateMaxDrawdown initialPortfolio.totalValue restValues
    trades := st.trades }

/-- `runBacktest(startDate, endDate)`. -/
def runBacktest {I : Type} (env : BacktestEnv I)
    (data : List (String × List MarketData))
    (initialPortfolio : PortfolioAnalysis) (startDate endDate : ℤ) :
    PerformanceMetrics :=
  getPerformanceMetrics env initialPortfolio
    (runBacktestState env data initialPortfolio startDate endDate)

/-! ## StrategyOptimizer (src/optimization/StrategyOptimizer.ts)

The optimizer's `evaluateParameters` runs a fresh backtest; the search-level
claims treat it as an `evaluate(parameters) → performance` oracle, passed in
as `evalFn`. -/

/-- One dimension of `OptimizationParameters` (object key plus
`{min, max, step}`), in key-insertion order within a parameter space. -/
structure ParamSpec where
  name : String
  min : ℚ
  max : ℚ
  step : ℚ
deriving DecidableEq

/-- Number of iterations of `for (let value = min; value <= max;
value += step)`: zero when the loop body never runs, and
`⌊(max − min) / step⌋ + 1` for a positive step starting inside the range
(the loop does not terminate for `step ≤ 0 ∧ min ≤ max`; such dimensions are
outside the embedded domain and get an empty list here). -/
def stepCount (mn mx st : ℚ) : ℕ :=
  if 0 < st ∧ mn ≤ mx then (⌊(mx - mn) / st⌋ + 1).toNat else 0

/-- The values enumerated for one dimension: `min, min + step, …` up to
`max` inclusive. -/
def gridValues (mn mx st : ℚ) : List ℚ :=
  (List.range (stepCount mn mx st)).map (fun i : ℕ => mn + (i : ℚ) * st)

/-- `generateCombinations(parameterValues, index, current, combinations)`:
depth-first Cartesian product, keys in dimension order, later dimensions
varying fastest. -/
def generateCombinations : List (String × List ℚ) → List (List (String × ℚ))
  | [] => [[]]
  | (name, values) :: rest =>
      values.flatMap (fun v =>
        (generateCombinations rest).map (fun tail => (name, v) :: tail))

/-- `generateParameterCombinations()`. -/
def generateParameterCombinations (params : List ParamSpec) :
    List (List (String × ℚ)) :=
  generateCombinations (params.map (fun p => (p.name, gridValues p.min p.max p.step)))

/-- The `performance` sub-record of an `OptimizationResult`. -/
structure StrategyPerformance where
  totalReturn : ℚ
  sharpeRatio : ℚ
  maxDrawdown : ℚ
  winRate : ℚ
deriving DecidableEq

/-- An `OptimizationResult`. -/
structure OptimizationResult where
  parameters : List (String × ℚ)
  performance : StrategyPerformance
deriving DecidableEq

/-- `calculatePerformanceScore(performance)`. -/
def calculatePerformanceScore (p : StrategyPerformance) : ℚ :=
  p.totalReturn * (4 / 10) + p.sharpeRatio * (3 / 10) +
    (1 - p.maxDrawdown) * (2 / 10) + p.winRate * (1 / 10)

/-- `gridSearch(startDate, endDate)`: evaluate every combination, keeping the
strictly better candidate (`isBetterResult` is a strict score comparison, so
the first-evaluated candidate wins ties).  `none` models the `null` that the
non-null assertion `bestResult!` lets escape when there are no
combinations. -/
def gridSearch (evalFn : List (String × ℚ) → StrategyPerformance)
    (params : List ParamSpec) : Option OptimizationResult :=
  (generateParameterCombinations params).foldl
    (fun bestResult parameters =>
      let result : OptimizationResult := ⟨parameters, evalFn parameters⟩
      match bestResult with
      | none => some result
      | some best =>
          if calculatePerformanceScore best.performance <
              calculatePerformanceScore result.performance
          then some result else some best)
    none

/-- `optimizeStrategy(startDate, endDate)`: dispatch on the configured method
name.  The genetic and bayesian searches draw on `Math.random`; since only
the dispatch itself is claimed, the value each branch would return is passed
in.  `Except.error` models the thrown `Error` with its exact message. -/
def optimizeStrategy (genetic grid bayesian : OptimizationResult)
    (optimizationMethod : String) : Except String OptimizationResult :=
  if optimizationMethod = "genetic" then .ok genetic
  else if optimizationMethod = "grid" then .ok grid
  else if optimizationMethod = "bayesian" then .ok bayesian
  else .error ("Unsupported optimization method: " ++ optimizationMethod)

/-! ## PortfolioOptimizer (the rebalancer source file) -/

/-- The `PortfolioOptimizer` fields read by `optimizePortfolio`. -/
structure RebalancerState where
  portfolio : PortfolioAnalysis
  marketInsights : List (String × MarketInsight)
  targetAllocation : List (String × ℚ)
  rebalanceThreshold : ℚ

/-- `estimatePrice(asset, insight)`: the placeholder constant 1.0. -/
def estimatePrice (asset : String) (insight : Option MarketInsight) : ℚ :=
  1

/-- `calculateTradePriority(deviation, insight)`: note that an absent insight
leaves the deviation unadjusted (the `* 0.5` default arm runs only for an
insight whose trend is neither bullish nor bearish). -/
def calculateTradePriority (deviation : ℚ) (insight : Option MarketInsight) : ℚ :=
  match insight with
  | none => deviation
  | some ins =>
    match ins.trend with
    | .bullish => deviation * ins.confidence
    | .bearish => deviation * (1 - ins.confidence)
    | .neutral => deviation * (1 / 2)

/-- `calculateDeviation(asset)` (used while ordering trades; trades carry
only asset names of the target allocation, for which the lookup agrees with
the deviation computed in `optimizePortfolio`). -/
def calculateDeviation (s : RebalancerState) (asset : String) : ℚ :=
  let currentValue := (s.portfolio.assetAllocation.lookup asset).getD 0
  let targetValue := s.portfolio.totalValue * ((s.targetAllocation.lookup asset).getD 0)
  (currentValue - targetValue) / targetValue

/-- The sort key of `optimizeTradeSequence`. -/
def tradePriority (s : RebalancerState) (t : Trade) : ℚ :=
  calculateTradePriority |calculateDeviation s t.asset|
    (s.marketInsights.lookup t.asset)

/-- `optimizeTradeSequence(trades)`: a stable sort by descending priority
(`Array.prototype.sort` with the comparator `bPriority - aPriority`). -/
def optimizeTradeSequence (s : RebalancerState) (trades : List Trade) :
    List Trade :=
  trades.insertionSort (fun a b => tradePriority s b ≤ tradePriority s a)

/-- The body of the first loop of `optimizePortfolio`: the deviations entry
`(asset, targetValue, deviation)` of one target-allocation entry. -/
def deviationEntry (s : RebalancerState) (p : String × ℚ) : String × ℚ × ℚ :=
  let targetValue := s.portfolio.totalValue * p.2
  (p.1, targetValue,
    ((s.portfolio.assetAllocation.lookup p.1).getD 0 - targetValue) / targetValue)

/-- The deviations map of `optimizePortfolio`, in target-key order. -/
def rebalanceDeviations (s : RebalancerState) : List (String × ℚ × ℚ) :=
  s.targetAllocation.map (deviationEntry s)

/-- The body of the second (trade-generating) loop of `optimizePortfolio`,
at position `q.1` of the iteration. -/
def rebalanceTrade (idGen : ℕ → String) (now : ℤ) (s : RebalancerState)
    (q : ℕ × String × ℚ × ℚ) : Option Trade :=
  let asset := q.2.1
  let targetValue := q.2.2.1
  let deviation := q.2.2.2
  if |deviation| > s.rebalanceThreshold then
    let currentValue := (s.portfolio.assetAllocation.lookup asset).getD 0
    let valueDifference := targetValue - currentValue
    if valueDifference ≠ 0 then
      let marketInsight := s.marketInsights.lookup asset
      let price := estimatePrice asset marketInsight
      let amount := valueDifference / price
      some { id := idGen q.1
             asset := asset
             type := if 0 < valueDifference then .buy else .sell
             amount := |amount|
             price := price
             timestamp := now
             strategy := "portfolio_optimization"
             execution := "rebalancing" }
    else none
  else none

/-- `optimizePortfolio()`: compute per-asset deviations over the target
allocation, emit a trade for each asset past the threshold (sized to close
the value gap at the estimated price), and order the result by priority.
`idGen` models `generateTradeId` (indexed by position in the deviations
iteration), `now` the ambient `Date.now()` used in the trade timestamp. -/
def optimizePortfolio (idGen : ℕ → String) (now : ℤ) (s : RebalancerState) :
    List Trade :=
  optimizeTradeSequence s
    ((rebalanceDeviations s).enum.filterMap (rebalanceTrade idGen now s))

/-! ## Spec-side definitions

These follow the wording of the specification / claims rather than the
source, for the refinement claims that compare the two. -/

/-- Spec §4.4 Grid: "for each dimension, enumerate values from `min` to `max`
inclusive, stepping by `step`" — transcribed as the literal loop, which
terminates for a positive step. -/
def specGridValues (st : ℚ) (hst : 0 < st) (mn mx : ℚ) : List ℚ :=
  if mn ≤ mx then mn :: specGridValues st hst (mn + st) mx else []
termination_by (⌊(mx - mn) / st⌋ + 1).toNat
decreasing_by
  have h1 : (mx - (mn + st)) / st = (mx - mn) / st - 1 := by
    field_simp
    ring
  have h2 : (0 : ℚ) ≤ (mx - mn) / st :=
    div_nonneg (by linarith) (le_of_lt hst)
  have h3 : (0 : ℤ) ≤ ⌊(mx - mn) / st⌋ := Int.floor_nonneg.mpr h2
  rw [h1, Int.floor_sub_one]
  omega

/-- Spec §4.4 Grid: the full Cartesian product of per-dimension value lists,
in dimension order with later dimensions varying fastest. -/
def specCartesianProduct : List (String × List ℚ) → List (List (String × ℚ))
  | [] => [[]]
  | (name, values) :: rest =>
      values.flatMap (fun v =>
        (specCartesianProduct rest).map (fun tail => (name, v) :: tail))

/-- `x` scores at least every element of `l`. -/
def isMaxIn {α : Type} (score : α → ℚ) (l : List α) (x : α) : Bool :=
  l.all (fun y => decide (score y ≤ score x))

/-- Spec §4.4: "return the maximum-score candidate, first-seen wins ties" —
the first list element whose score is at least every score in the list. -/
def firstMaxBy {α : Type} (score : α → ℚ) (l : List α) : Option α :=
  l.find? (isMaxIn score l)

/-- Spec §3 data-model invariant: the price of an asset at time `t` is
"carried forward from the most recent bar at or before" `t` (0 when the
asset has no bar at or before `t`). -/
def carriedPrice (data : List (String × List MarketData)) (asset : String)
    (t : ℤ) : ℚ :=
  match data.lookup asset with
  | none => 0
  | some series =>
    match (series.filter (fun d => decide (d.timestamp ≤ t))).getLast? with
    | some d => d.close
    | none => 0

/-- Claim C4's reading of the snapshot invariant: `totalValue` equals the sum
over the snapshot's own allocation of `allocation[asset] ·
carriedPrice(asset, snapshot.timestamp)`. -/
def claimSnapshotValue (data : List (String × List MarketData))
    (snapshot : PortfolioAnalysis) : ℚ :=
  (snapshot.assetAllocation.map
    (fun p => p.2 * carriedPrice data p.1 snapshot.timestamp)).sum

/-- Claim C8's trend adjustment: "multiplies … by 0.5 when the insight is
neutral or absent". -/
def claimTradePriority (deviation : ℚ) (insight : Option MarketInsight) : ℚ :=
  match insight with
  | none => deviation * (1 / 2)
  | some ins =>
    match ins.trend with
    | .bullish => deviation * ins.confidence
    | .bearish => deviation * (1 - ins.confidence)
    | .neutral => deviation * (1 / 2)

/-- Claim C8's sort key for an emitted trade. -/
def claimPriorityOf (s : RebalancerState) (t : Trade) : ℚ :=
  claimTradePriority |calculateDeviation s t.asset|
    (s.marketInsights.lookup t.asset)

/-- Claim C7's pairing: the partner of a trade is the immediately preceding
trade on the same asset in history order (the latest earlier same-asset
trade). -/
def prevSameAsset (preceding : List Trade) (t : Trade) : Option Trade :=
  (preceding.filter (fun u => u.asset == t.asset)).getLast?

/-- Claim C7's win count, walking the history with its processed prefix. -/
def claimWinsAux : List Trade → List Trade → ℕ
  | _, [] => 0
  | preceding, t :: rest =>
      (match prevSameAsset preceding t with
       | some u => if 0 < calculateTradeProfit u t then 1 else 0
       | none => 0) + claimWinsAux (preceding ++ [t]) rest

/-- Claim C7's `winRate = wins / totalTrades` (0 for an empty history). -/
def claimWinRate (trades : List Trade) : ℚ :=
  if trades.length = 0 then 0
  else (claimWinsAux [] trades : ℚ) / (trades.length : ℚ)

/-- Spec §8 "Return identity": `(final.totalValue − initial.totalValue) /
initial.totalValue`. -/
def specTotalReturn (initial final : ℚ) : ℚ :=
  (final - initial) / initial

/-! ## Shared lemmas -/

/-- Invariant of the `calculateMaxDrawdown` loop: from a positive peak and a
finite accumulator in `[0,1]`, a run of nonnegative values keeps the peak
positive and the accumulator finite, within `[0,1]`, and non-decreasing. -/
theorem drawdownFold_inv (l : List ℚ) :
    ∀ peak q : ℚ, 0 < peak → 0 ≤ q → q ≤ 1 → (∀ v ∈ l, 0 ≤ v) →
    ∃ peak' q',
      List.foldl drawdownStep (peak, JSNum.num q) l = (peak', JSNum.num q') ∧
        peak ≤ peak' ∧ 0 < peak' ∧ q ≤ q' ∧ 0 ≤ q' ∧ q' ≤ 1 := by
  induction l with
  | nil =>
    intro peak q hp hq0 hq1 _
    exact ⟨peak, q, rfl, le_rfl, hp, le_rfl, hq0, hq1⟩
  | cons v t ih =>
    intro peak q hp hq0 hq1 hall
    have hv : 0 ≤ v := hall v (List.mem_cons_self _ _)
    have hp₁ : 0 < max peak v := lt_of_lt_of_le hp (le_max_left _ _)
    have hstep : drawdownStep (peak, JSNum.num q) v =
        (max peak v, JSNum.num (max q ((max peak v - v) / max peak v))) := by
      unfold drawdownStep
      have hpk : (if peak < v then v else peak) = max peak v := by
        rcases le_or_lt v peak with h | h
        · rw [if_neg (not_lt.mpr h), max_eq_left h]
        · rw [if_pos h, max_eq_right (le_of_lt h)]
      simp only [hpk, jsDiv, if_neg (ne_of_gt hp₁), jsMax]
    have hd0 : 0 ≤ (max peak v - v) / max peak v :=
      div_nonneg (by simp) (le_of_lt hp₁)
    have hd1 : (max peak v - v) / max peak v ≤ 1 := by
      rw [div_le_one hp₁]
      linarith
    obtain ⟨p', q', heq, h1, h2, h3, h4, h5⟩ :=
      ih (max peak v) (max q ((max peak v - v) / max peak v)) hp₁
        (le_trans hq0 (le_max_left _ _)) (max_le hq1 hd1)
        (fun x hx => hall x (List.mem_cons_of_mem _ hx))
    rw [List.foldl_cons, hstep]
    exact ⟨p', q', heq, le_trans (le_max_left _ _) h1, h2,
      le_trans (le_max_left _ _) h3, h4, h5⟩

/-- Over a positive initial value the first drawdown iteration is a no-op. -/
theorem drawdownStep_initial (h0 : ℚ) (hpos : 0 < h0) :
    drawdownStep (h0, JSNum.num 0) h0 = (h0, JSNum.num 0) := by
  unfold drawdownStep
  simp only [lt_irrefl, if_false, sub_self, jsDiv, if_neg (ne_of_gt hpos),
    zero_div, jsMax, max_self]

/-- `countWins` counts the adjacent pairs that are same-asset wins. -/
theorem countWins_eq_countP (l : List Trade) :
    countWins l = (l.zip l.tail).countP
      (fun p => decide (p.1.asset = p.2.asset) &&
        decide (0 < calculateTradeProfit p.1 p.2)) := by
  induction l with
  | nil => rfl
  | cons a t ih =>
    cases t with
    | nil => rfl
    | cons b rest =>
      simp only [countWins, ih, List.tail_cons, List.zip_cons_cons,
        List.countP_cons]
      by_cases h1 : a.asset = b.asset <;>
        by_cases h2 : 0 < calculateTradeProfit a b <;>
          simp [h1, h2, Nat.add_comm]

/-! ## C5: drawdown bound and monotonicity -/

/-- C5 (counterexample): the claim admits every history whose values satisfy
`totalValue ≥ 0`, but on the history whose single snapshot has value 0 the
running peak is 0 and `(0 − 0) / 0` is NaN, so `calculateMaxDrawdown` is NaN,
not a value in `[0, 1]`. -/
theorem maxDrawdown_zero_history_cex :
    (∀ v ∈ ((0 : ℚ) :: ([] : List ℚ)), 0 ≤ v) ∧
      ¬ inUnitInterval (calculateMaxDrawdown 0 []) := by
  constructor
  · intro v hv
    simp only [List.mem_singleton] at hv
    simp [hv]
  · rintro ⟨q, hq, -, -⟩
    have h : calculateMaxDrawdown 0 [] = JSNum.nan := by
      simp [calculateMaxDrawdown, drawdownStep, jsDiv, jsMax]
    rw [h] at hq
    exact JSNum.noConfusion hq

/-- C5 (amended): provided the initial snapshot's `totalValue` is positive
(not merely nonnegative) and all later snapshot values are nonnegative,
`calculateMaxDrawdown` is a finite value in `[0, 1]`, and appending further
nonnegative snapshots never decreases it. -/
theorem maxDrawdown_bounds_mono_amended (h0 : ℚ) (rest ext : List ℚ)
    (hpos : 0 < h0) (hrest : ∀ v ∈ rest, 0 ≤ v) (hext : ∀ v ∈ ext, 0 ≤ v) :
    ∃ q q', calculateMaxDrawdown h0 rest = JSNum.num q ∧
      calculateMaxDrawdown h0 (rest ++ ext) = JSNum.num q' ∧
      0 ≤ q ∧ q ≤ 1 ∧ 0 ≤ q' ∧ q' ≤ 1 ∧ q ≤ q' := by
  obtain ⟨p, q, heq, -, hp, -, hq0, hq1⟩ :=
    drawdownFold_inv rest h0 0 hpos le_rfl zero_le_one hrest
  obtain ⟨p', q', heq', -, -, hqq', hq'0, hq'1⟩ :=
    drawdownFold_inv ext p q hp hq0 hq1 hext
  refine ⟨q, q', ?_, ?_, hq0, hq1, hq'0, hq'1, hqq'⟩
  · unfold calculateMaxDrawdown
    rw [List.foldl_cons, drawdownStep_initial h0 hpos, heq]
  · unfold calculateMaxDrawdown
    rw [List.foldl_cons, drawdownStep_initial h0 hpos, List.foldl_append,
      heq, heq']

/-- Witness for `maxDrawdown_bounds_mono_amended` at the history `[1, 1/2]`
extended by `[2]`. -/
theorem maxDrawdown_bounds_mono_amended_witness :
    (0 : ℚ) < 1 ∧
      ∃ q q', calculateMaxDrawdown 1 [1 / 2] = JSNum.num q ∧
        calculateMaxDrawdown 1 ([1 / 2] ++ [2]) = JSNum.num q' ∧
        0 ≤ q ∧ q ≤ 1 ∧ 0 ≤ q' ∧ q' ≤ 1 ∧ q ≤ q' :=
  ⟨by norm_num,
    maxDrawdown_bounds_mono_amended 1 [1 / 2] [2] (by norm_num)
      (by intro v hv; simp only [List.mem_singleton] at hv; simp [hv])
      (by intro v hv; simp only [List.mem_singleton] at hv; simp [hv])⟩

/-! ## C6: return identity -/

/-- C6: the analyzer's `totalReturn` over the history `initial :: rest`
equals `(final − initial) / initial` with `final` the last value of the
history and `initial` the seeded snapshot value. -/
theorem totalReturn_identity (initialValue : ℚ) (rest : List ℚ) :
    calculateTotalReturn initialValue rest =
      specTotalReturn initialValue ((initialValue :: rest).getLastD 0) := by
  unfold calculateTotalReturn specTotalReturn
  rw [List.getLastD_cons]

/-! ## C7: win-rate pairing -/

/-- The three-trade history that separates the two pairings: buy A, buy B,
sell A. -/
def winRateCexTrades : List Trade :=
  [{ id := "1", asset := "A", type := .buy, amount := 1, price := 1,
     timestamp := 0, strategy := "s", execution := "e" },
   { id := "2", asset := "B", type := .buy, amount := 1, price := 1,
     timestamp := 0, strategy := "s", execution := "e" },
   { id := "3", asset := "A", type := .sell, amount := 1, price := 2,
     timestamp := 0, strategy := "s", execution := "e" }]

/-- C7 (counterexample): on `buy A, buy B, sell A` the code pairs only
adjacent trades (both adjacent pairs mix assets, so 0 wins), while pairing
each trade with its latest earlier same-asset trade, as the claim reads,
pairs `sell A` with `buy A` for a win: `0 ≠ 1/3`. -/
theorem winRate_pairing_cex :
    calculateWinRate winRateCexTrades ≠ claimWinRate winRateCexTrades := by
  have hcode : calculateWinRate winRateCexTrades = 0 := by
    simp [calculateWinRate, winRateCexTrades, countWins, calculateTradeProfit]
  have hclaim : claimWinRate winRateCexTrades = 1 / 3 := by
    simp [claimWinRate, winRateCexTrades, claimWinsAux, prevSameAsset,
      calculateTradeProfit]
  rw [hcode, hclaim]
  norm_num

/-- C7 (amended): each trade is paired with the immediately preceding trade
in history order, and the pair counts as a win only when both trades are on
the same asset and the later realizes positive profit against the earlier
under the buy-then-sell / sell-then-buy convention; `winRate` is that win
count over `totalTrades`, and 0 for an empty history. -/
theorem winRate_adjacent_pairs_amended (trades : List Trade) :
    calculateWinRate trades =
      if trades.length = 0 then 0
      else ((trades.zip trades.tail).countP
        (fun p => decide (p.1.asset = p.2.asset) &&
          decide (0 < calculateTradeProfit p.1 p.2)) : ℚ) / (trades.length : ℚ) := by
  unfold calculateWinRate
  rw [countWins_eq_countP]

/-! ## C10: degenerate-history behaviour of the risk metrics -/

/-- C10: on an empty daily-returns series (as produced by a single-snapshot
history), `calculateValueAtRisk` indexes past the end of an empty array and
returns NaN, and `calculateExpectedShortfall` divides `-0` by `0` and
returns NaN — not 0 as the specification requires — while the remaining
metrics do return 0. -/
theorem risk_metrics_empty_history_eval :
    calculateValueAtRisk [] = JSNum.nan ∧
    calculateExpectedShortfall [] = JSNum.nan ∧
    (∀ sqrtFn : ℚ → ℚ, calculateSharpeRatio sqrtFn [] = 0) ∧
    calculateWinRate [] = 0 ∧
    calculateTotalReturn 100 [] = 0 ∧
    calculateMaxDrawdown 100 [] = JSNum.num 0 ∧
    calculateDailyReturns
      (aggregateDailyPortfolioValues (fun t => t) 100 100 [(50, 100)]) = [] := by
  refine ⟨?_, ?_, ?_, ?_, ?_, ?_, ?_⟩
  · simp [calculateValueAtRisk]
  · simp [calculateExpectedShortfall, calculateValueAtRisk, jsDiv]
  · intro sqrtFn
    simp [calculateSharpeRatio]
  · simp [calculateWinRate]
  · simp [calculateTotalReturn]
  · simp [calculateMaxDrawdown, drawdownStep, jsDiv, jsMax]
  · simp [calculateDailyReturns, aggregateDailyPortfolioValues]

/-! ## C9: optimization-method dispatch -/

/-- A throwaway `OptimizationResult` standing for whatever a dispatched
search would return. -/
def dummyOptResult : OptimizationResult := ⟨[], ⟨0, 0, 0, 0⟩⟩

/-- C9 (counterexample): the method name `iterative` is not dispatched — it
falls through to the thrown error — while `bayesian` (not among the claim's
method names) is dispatched; the error message names only the offending
method and does not enumerate the valid ones. -/
theorem optimizeStrategy_iterative_cex :
    optimizeStrategy dummyOptResult dummyOptResult dummyOptResult "iterative" =
      .error "Unsupported optimization method: iterative" ∧
    optimizeStrategy dummyOptResult dummyOptResult dummyOptResult "bayesian" =
      .ok dummyOptResult := by
  exact ⟨rfl, rfl⟩

/-- C9 (amended): `optimizeStrategy` dispatches exactly the method names
`genetic`, `grid` and `bayesian`; every other name (including `iterative`)
fails with the error `Unsupported optimization method: <name>`, which names
only the offending method.  The failure is pure — no other state exists to
be affected. -/
theorem optimizeStrategy_dispatch_amended
    (genetic grid bayesian : OptimizationResult) (method : String) :
    (method ∈ (["genetic", "grid", "bayesian"] : List String) ↔
      ∃ r, optimizeStrategy genetic grid bayesian method = .ok r) ∧
    (method ∉ (["genetic", "grid", "bayesian"] : List String) →
      optimizeStrategy genetic grid bayesian method =
        .error ("Unsupported optimization method: " ++ method)) := by
  constructor
  · constructor
    · intro hm
      simp only [List.mem_cons, List.mem_singleton, List.not_mem_nil,
        or_false] at hm
      rcases hm with h | h | h <;> subst h <;> simp [optimizeStrategy]
    · rintro ⟨r, hr⟩
      by_cases h1 : method = "genetic"
      · simp [h1]
      · by_cases h2 : method = "grid"
        · simp [h2]
        · by_cases h3 : method = "bayesian"
          · simp [h3]
          · simp [optimizeStrategy, h1, h2, h3] at hr
  · intro hm
    simp only [List.mem_cons, List.mem_singleton, List.not_mem_nil, or_false,
      not_or] at hm
    obtain ⟨h1, h2, h3⟩ := hm
    simp [optimizeStrategy, h1, h2, h3]

/-- Witness for `optimizeStrategy_dispatch_amended` at the method name
`iterative`. -/
theorem optimizeStrategy_dispatch_amended_witness :
    "iterative" ∉ (["genetic", "grid", "bayesian"] : List String) ∧
    optimizeStrategy dummyOptResult dummyOptResult dummyOptResult "iterative" =
      .error ("Unsupported optimization method: " ++ "iterative") :=
  ⟨by decide,
    (optimizeStrategy_dispatch_amended dummyOptResult dummyOptResult
      dummyOptResult "iterative").2 (by decide)⟩

/-! ## C3: grid search -/

/-- The range-encoded `gridValues` satisfies the recurrence of the source's
`for (let value = min; value <= max; value += step)` loop (for a positive
step, where the loop terminates). -/
theorem gridValues_loop (mn mx st : ℚ) (hst : 0 < st) :
    gridValues mn mx st =
      if mn ≤ mx then mn :: gridValues (mn + st) mx st else [] := by
  by_cases hmx : mn ≤ mx
  · rw [if_pos hmx]
    have h0 : (0 : ℚ) ≤ (mx - mn) / st := div_nonneg (by linarith) (le_of_lt hst)
    have hfl : (0 : ℤ) ≤ ⌊(mx - mn) / st⌋ := Int.floor_nonneg.mpr h0
    have hcount : stepCount mn mx st = ⌊(mx - mn) / st⌋.toNat + 1 := by
      unfold stepCount
      rw [if_pos ⟨hst, hmx⟩]
      omega
    have hcount' : stepCount (mn + st) mx st = ⌊(mx - mn) / st⌋.toNat := by
      unfold stepCount
      by_cases h2 : mn + st ≤ mx
      · rw [if_pos ⟨hst, h2⟩]
        have heq : (mx - (mn + st)) / st = (mx - mn) / st - 1 := by
          field_simp
          ring
        rw [heq, Int.floor_sub_one]
        omega
      · rw [if_neg (fun hc => h2 hc.2)]
        have hlt : (mx - mn) / st < 1 := by
          rw [div_lt_one hst]
          linarith
        have hz : ⌊(mx - mn) / st⌋ = 0 := by
          rw [Int.floor_eq_zero_iff]
          exact ⟨h0, hlt⟩
        omega
    unfold gridValues
    rw [hcount, hcount', List.range_succ_eq_map, List.map_cons, List.map_map]
    congr 1
    · norm_num
    · apply List.map_congr_left
      intro i _
      simp only [Function.comp_apply]
      push_cast
      ring
  · rw [if_neg hmx]
    unfold gridValues stepCount
    rw [if_neg (fun hc => hmx hc.2)]
    rfl

/-- The spec's per-dimension enumeration coincides with the source's. -/
theorem specGridValues_eq_gridValues (st : ℚ) (hst : 0 < st) (mn mx : ℚ) :
    specGridValues st hst mn mx = gridValues mn mx st := by
  rw [specGridValues, gridValues_loop mn mx st hst]
  by_cases h : mn ≤ mx
  · rw [if_pos h, if_pos h, specGridValues_eq_gridValues st hst (mn + st) mx]
  · rw [if_neg h, if_neg h]
termination_by (⌊(mx - mn) / st⌋ + 1).toNat
decreasing_by
  have h1 : (mx - (mn + st)) / st = (mx - mn) / st - 1 := by
    field_simp
    ring
  have h2 : (0 : ℚ) ≤ (mx - mn) / st :=
    div_nonneg (by linarith) (le_of_lt hst)
  have h3 : (0 : ℤ) ≤ ⌊(mx - mn) / st⌋ := Int.floor_nonneg.mpr h2
  rw [h1, Int.floor_sub_one]
  omega

/-- The source's combination generator is exactly the spec's Cartesian
product. -/
theorem generateCombinations_eq_spec (dims : List (String × List ℚ)) :
    generateCombinations dims = specCartesianProduct dims := by
  induction dims with
  | nil => rfl
  | cons d rest ih =>
    obtain ⟨name, values⟩ := d
    simp only [generateCombinations, specCartesianProduct, ih]

/-- `find?` only consults its predicate on list members. -/
theorem find?_congrOn {α : Type} (p q : α → Bool) :
    ∀ l : List α, (∀ x ∈ l, p x = q x) → l.find? p = l.find? q := by
  intro l
  induction l with
  | nil => intro _; rfl
  | cons a t ih =>
    intro h
    rw [List.find?_cons, List.find?_cons, h a (List.mem_cons_self _ _)]
    cases q a
    · exact ih (fun x hx => h x (List.mem_cons_of_mem _ hx))
    · rfl

/-- Peeling off one `cons` from the membership list of `isMaxIn`. -/
theorem isMaxIn_cons {α : Type} (score : α → ℚ) (a : α) (l : List α) (x : α) :
    isMaxIn score (a :: l) x =
      (decide (score a ≤ score x) && isMaxIn score l x) := by
  simp [isMaxIn, List.all_cons]

/-- A `false` boolean is not `true`. -/
theorem bool_ne_true {b : Bool} (h : b = false) : ¬ b = true := by
  rw [h]
  exact Bool.false_ne_true

/-- Dropping from the candidate list an element that is definitely beaten
(or definitely no better than an earlier element) does not change the first
maximum. -/
theorem firstMaxBy_cons_cons {α : Type} (score : α → ℚ) (b c : α) (t : List α) :
    firstMaxBy score (b :: c :: t) =
      if score b < score c then firstMaxBy score (c :: t)
      else firstMaxBy score (b :: t) := by
  unfold firstMaxBy
  by_cases h : score b < score c
  · rw [if_pos h]
    have hPb : isMaxIn score (b :: c :: t) b = false := by
      unfold isMaxIn
      apply List.all_eq_false.mpr
      exact ⟨c, List.mem_cons_of_mem _ (List.mem_cons_self _ _),
        by simp [not_le.mpr h]⟩
    rw [List.find?_cons_of_neg _ (bool_ne_true hPb)]
    apply find?_congrOn
    intro x hx
    rw [isMaxIn_cons]
    cases hQ : isMaxIn score (c :: t) x with
    | false => simp [hQ]
    | true =>
      have h1 : (c :: t).all (fun y => decide (score y ≤ score x)) = true := hQ
      have hcx : score c ≤ score x :=
        of_decide_eq_true (List.all_eq_true.mp h1 c (List.mem_cons_self _ _))
      simp only [hQ, Bool.and_true]
      exact decide_eq_true (le_trans (le_of_lt h) hcx)
  · have hcb : score c ≤ score b := not_lt.mp h
    rw [if_neg h]
    have hpw : ∀ x, isMaxIn score (b :: c :: t) x = isMaxIn score (b :: t) x := by
      intro x
      rw [isMaxIn_cons, isMaxIn_cons, isMaxIn_cons]
      cases hbx : decide (score b ≤ score x) with
      | false => simp
      | true =>
        have hcx : score c ≤ score x := le_trans hcb (of_decide_eq_true hbx)
        simp [decide_eq_true hcx]
    rw [find?_congrOn _ _ _ (fun x _ => hpw x)]
    cases hQb : isMaxIn score (b :: t) b with
    | true =>
      rw [List.find?_cons_of_pos _ hQb, List.find?_cons_of_pos _ hQb]
    | false =>
      rw [List.find?_cons_of_neg _ (bool_ne_true hQb),
        List.find?_cons_of_neg _ (bool_ne_true hQb)]
      have hQc : isMaxIn score (b :: t) c = false := by
        cases hqc : isMaxIn score (b :: t) c with
        | false => rfl
        | true =>
          exfalso
          have h1 : (b :: t).all (fun y => decide (score y ≤ score c)) = true := hqc
          have h2 : isMaxIn score (b :: t) b = true := by
            unfold isMaxIn
            apply List.all_eq_true.mpr
            intro y hy
            exact decide_eq_true
              (le_trans (of_decide_eq_true (List.all_eq_true.mp h1 y hy)) hcb)
          rw [h2] at hQb
          exact Bool.noConfusion hQb
      rw [List.find?_cons_of_neg _ (bool_ne_true hQc)]

/-- The accumulator step of the best-candidate fold, abstracted over the
score. -/
def foldBestStep {α : Type} (score : α → ℚ) (best : Option α) (x : α) :
    Option α :=
  match best with
  | none => some x
  | some b => if score b < score x then some x else some b

/-- The best-candidate fold started at `some b` finds the first maximum of
`b` followed by the list. -/
theorem foldBest_some {α : Type} (score : α → ℚ) (l : List α) :
    ∀ b, l.foldl (foldBestStep score) (some b) = firstMaxBy score (b :: l) := by
  induction l with
  | nil =>
    intro b
    unfold firstMaxBy
    have hp : isMaxIn score [b] b = true := by simp [isMaxIn]
    rw [List.find?_cons_of_pos _ hp]
    rfl
  | cons c t ih =>
    intro b
    rw [List.foldl_cons]
    have hstep : foldBestStep score (some b) c =
        if score b < score c then some c else some b := rfl
    rw [hstep, firstMaxBy_cons_cons score b c t]
    by_cases h : score b < score c
    · rw [if_pos h, if_pos h, ih c]
    · rw [if_neg h, if_neg h, ih b]

/-- The best-candidate fold finds the first maximum-score element. -/
theorem foldBest_eq_firstMaxBy {α : Type} (score : α → ℚ) (l : List α) :
    l.foldl (foldBestStep score) none = firstMaxBy score l := by
  cases l with
  | nil => rfl
  | cons a t =>
    rw [List.foldl_cons]
    have hstep : foldBestStep score none a = some a := rfl
    rw [hstep, foldBest_some]

/-- The objective score of a candidate. -/
def scoreOf (r : OptimizationResult) : ℚ :=
  calculatePerformanceScore r.performance

/-- `gridSearch` is the best-candidate fold over the evaluated
combinations. -/
theorem gridSearch_eq_foldBest
    (evalFn : List (String × ℚ) → StrategyPerformance)
    (params : List ParamSpec) :
    gridSearch evalFn params =
      ((generateParameterCombinations params).map
        (fun ps => (⟨ps, evalFn ps⟩ : OptimizationResult))).foldl
        (foldBestStep scoreOf) none := by
  unfold gridSearch
  rw [List.foldl_map]
  congr 1
  funext best ps
  cases best <;> rfl

/-- C3: for positive steps, (i) each dimension's enumerated values are
exactly the spec's min-to-max-inclusive stepping, (ii) the evaluated set is
exactly the Cartesian product of the per-dimension lists, (iii) the
single-dimension spec `{min: 0, max: 1, step: 1}` enumerates exactly
`[0, 1]`, and (iv) the returned candidate is the first evaluated one whose
objective score `0.4·totalReturn + 0.3·sharpeRatio + 0.2·(1 − maxDrawdown)
+ 0.1·winRate` is maximal (first-evaluated wins ties). -/
theorem gridSearch_spec (params : List ParamSpec)
    (evalFn : List (String × ℚ) → StrategyPerformance)
    (hstep : ∀ p ∈ params, 0 < p.step) :
    (∀ p (hp : p ∈ params),
      gridValues p.min p.max p.step =
        specGridValues p.step (hstep p hp) p.min p.max) ∧
    (∀ dims : List (String × List ℚ),
      generateCombinations dims = specCartesianProduct dims) ∧
    gridValues 0 1 1 = [0, 1] ∧
    gridSearch evalFn params =
      firstMaxBy scoreOf ((generateParameterCombinations params).map
        (fun ps => (⟨ps, evalFn ps⟩ : OptimizationResult))) := by
  refine ⟨?_, generateCombinations_eq_spec, ?_, ?_⟩
  · intro p hp
    exact (specGridValues_eq_gridValues p.step (hstep p hp) p.min p.max).symm
  · have hsc : stepCount 0 1 1 = 2 := by
      unfold stepCount
      rw [if_pos ⟨by norm_num, by norm_num⟩]
      norm_num
      decide
    unfold gridValues
    rw [hsc]
    norm_num [List.range_succ]
  · rw [gridSearch_eq_foldBest, foldBest_eq_firstMaxBy]

/-- Witness for `gridSearch_spec` on the single-dimension space
`{x: {min: 0, max: 1, step: 1}}` with a constant oracle. -/
theorem gridSearch_spec_witness :
    (∀ p ∈ ([⟨"x", 0, 1, 1⟩] : List ParamSpec), 0 < p.step) ∧
    gridSearch (fun _ => ⟨0, 0, 0, 0⟩) [⟨"x", 0, 1, 1⟩] =
      firstMaxBy scoreOf
        ((generateParameterCombinations [⟨"x", 0, 1, 1⟩]).map
          (fun ps =>
            (⟨ps, (fun _ => (⟨0, 0, 0, 0⟩ : StrategyPerformance)) ps⟩ :
              OptimizationResult))) :=
  ⟨by
    intro p hp
    simp only [List.mem_singleton] at hp
    rw [hp]
    norm_num,
   (gridSearch_spec [⟨"x", 0, 1, 1⟩] (fun _ => ⟨0, 0, 0, 0⟩)
      (by
        intro p hp
        simp only [List.mem_singleton] at hp
        rw [hp]
        norm_num)).2.2.2⟩

/-! ## C2: the built-in sizing function generates no trades -/

/-- The backtest loop never appends a trade: `calculateTradeAmount` is
constantly 0, so `generateTrades` always returns the empty list. -/
theorem runBacktestLoop_trades {I : Type} (env : BacktestEnv I)
    (data : List (String × List MarketData)) :
    ∀ (ts : List ℤ) (i : ℕ) (st : EngineState),
      (runBacktestLoop env data ts i st).trades = st.trades := by
  intro ts
  induction ts with
  | nil => intro i st; rfl
  | cons t rest ih =>
    intro i st
    rw [runBacktestLoop, ih]
    have hgen : generateTrades env data (analyzeMarkets env data t) i = [] := by
      unfold generateTrades
      apply List.filterMap_eq_nil_iff.mpr
      intro p _
      cases hcd : getCurrentData data env.now i p.1 <;>
        simp [hcd, calculateTradeAmount]
    show st.trades ++ (generateTrades env data (analyzeMarkets env data t) i).filter _ = st.trades
    rw [hgen]
    simp

/-- C2: for every environment (wall clock, collaborators, window, data,
initial snapshot), `runBacktest` appends no trade — the report's trade list
is empty and its `winRate` is 0 — because `calculateTradeAmount` returns 0
for every asset, insight and price. -/
theorem runBacktest_no_trades {I : Type} (env : BacktestEnv I)
    (data : List (String × List MarketData)) (init : PortfolioAnalysis)
    (startDate endDate : ℤ) :
    (runBacktest env data init startDate endDate).trades = [] ∧
    (runBacktest env data init startDate endDate).winRate = 0 := by
  have h : (runBacktestState env data init startDate endDate).trades = [] := by
    unfold runBacktestState
    rw [runBacktestLoop_trades]
  constructor
  · show (runBacktestState env data init startDate endDate).trades = []
    exact h
  · show calculateWinRate (runBacktestState env data init startDate endDate).trades = 0
    rw [h]
    rfl

/-! ## C1: wall-clock dependence of `runBacktest` -/

/-- The C1 environment: everything fixed except the ambient wall clock
`now`. -/
def cexEnvC1 (now : ℤ) : BacktestEnv Unit :=
  { analyze := fun _ _ => none
    canOpenPosition := fun _ _ _ => true
    tradeId := ""
    now := now
    sqrtFn := fun _ => 0
    day := fun t => t
    startTime := 0 }

/-- One asset with a single bar at time 5, close 2. -/
def cexDataC1 : List (String × List MarketData) :=
  [("A", [⟨5, 0, 0, 0, 2, 0⟩])]

/-- Initial snapshot: one unit of A, total value 2. -/
def cexInitC1 : PortfolioAnalysis := ⟨0, 2, [("A", 1)], 0, []⟩

/-- C1: two runs over identical historical data, identical initial snapshot
and identical window `[0, 10]`, with identical collaborator behaviour,
return different reports when the ambient wall clock differs (3 versus 7):
`getCurrentData` prices through the timeline `getTimeRange(0, Date.now())`,
which at clock 3 does not yet contain the bar at time 5. -/
theorem wallclock_dependence_runBacktest :
    (runBacktest (cexEnvC1 3) cexDataC1 cexInitC1 0 10).totalReturn = -1 ∧
    (runBacktest (cexEnvC1 7) cexDataC1 cexInitC1 0 10).totalReturn = 0 := by
  have ht : getTimeRange cexDataC1 0 10 = [5] := by
    simp [getTimeRange, cexDataC1, List.insertionSort, List.orderedInsert]
  have ht3 : getTimeRange cexDataC1 0 3 = [] := by
    simp [getTimeRange, cexDataC1]
  have ht7 : getTimeRange cexDataC1 0 7 = [5] := by
    simp [getTimeRange, cexDataC1, List.insertionSort, List.orderedInsert]
  have hlk : cexDataC1.lookup "A" = some [⟨5, 0, 0, 0, 2, 0⟩] := by
    simp [cexDataC1]
  have hcd3 : getCurrentData cexDataC1 3 0 "A" = none := by
    unfold getCurrentData
    rw [hlk, ht3]
    rfl
  have hcd7 : getCurrentData cexDataC1 7 0 "A" =
      some ⟨5, 0, 0, 0, 2, 0⟩ := by
    unfold getCurrentData
    rw [hlk, ht7]
    rfl
  constructor
  · show calculateTotalReturn cexInitC1.totalValue
      ((runBacktestState (cexEnvC1 3) cexDataC1 cexInitC1 0 10).history.tail.map
        (·.totalValue)) = -1
    rw [runBacktestState]
    show calculateTotalReturn cexInitC1.totalValue
      ((runBacktestLoop (cexEnvC1 3) cexDataC1 (getTimeRange cexDataC1 0 10) 0
        ⟨cexInitC1, [], [cexInitC1]⟩).history.tail.map (·.totalValue)) = -1
    rw [ht]
    rw [runBacktestLoop, runBacktestLoop]
    simp [backtestStep, calculateTotalValue, cexEnvC1, cexInitC1, hcd3,
      calculateTotalReturn]
  · show calculateTotalReturn cexInitC1.totalValue
      ((runBacktestState (cexEnvC1 7) cexDataC1 cexInitC1 0 10).history.tail.map
        (·.totalValue)) = 0
    rw [runBacktestState]
    show calculateTotalReturn cexInitC1.totalValue
      ((runBacktestLoop (cexEnvC1 7) cexDataC1 (getTimeRange cexDataC1 0 10) 0
        ⟨cexInitC1, [], [cexInitC1]⟩).history.tail.map (·.totalValue)) = 0
    rw [ht]
    rw [runBacktestLoop, runBacktestLoop]
    simp [backtestStep, calculateTotalValue, cexEnvC1, cexInitC1, hcd7,
      calculateTotalReturn]

/-! ## C4: the snapshot `totalValue` invariant -/

/-- Loop invariant of `runBacktest`: every snapshot appended at loop index
`j` has `totalValue` computed by `calculateTotalValue` (exact-timestamp
pricing over the `[0, Date.now()]` timeline at index `j`) from the
*previous* snapshot's allocation. -/
theorem runBacktestLoop_history_inv {I : Type} (env : BacktestEnv I)
    (data : List (String × List MarketData)) :
    ∀ (ts : List ℤ) (i : ℕ) (st : EngineState),
      st.history.length = i + 1 →
      st.history.getLast? = some st.currentPortfolio →
      (∀ j p q, st.history.get? (j + 1) = some p → st.history.get? j = some q →
        p.totalValue = calculateTotalValue data env.now j q.assetAllocation) →
      ∀ j p q,
        (runBacktestLoop env data ts i st).history.get? (j + 1) = some p →
        (runBacktestLoop env data ts i st).history.get? j = some q →
        p.totalValue = calculateTotalValue data env.now j q.assetAllocation := by
  intro ts
  induction ts with
  | nil => intro i st _ _ hinv; exact hinv
  | cons t rest ih =>
    intro i st hlen hlast hinv
    rw [runBacktestLoop]
    have hhist : (backtestStep env data i t st).history =
        st.history ++ [(backtestStep env data i t st).currentPortfolio] := rfl
    have h1 : (backtestStep env data i t st).history.length = (i + 1) + 1 := by
      rw [hhist, List.length_append, hlen]
      rfl
    have h2 : (backtestStep env data i t st).history.getLast? =
        some (backtestStep env data i t st).currentPortfolio := by
      rw [hhist, List.getLast?_concat]
    have h3 : ∀ j p q,
        (backtestStep env data i t st).history.get? (j + 1) = some p →
        (backtestStep env data i t st).history.get? j = some q →
        p.totalValue = calculateTotalValue data env.now j q.assetAllocation := by
      intro j p q hp hq
      rw [hhist] at hp hq
      by_cases hj : j + 1 < st.history.length
      · rw [List.get?_append hj] at hp
        rw [List.get?_append (by omega)] at hq
        exact hinv j p q hp hq
      · by_cases hj2 : j + 1 = st.history.length
        · rw [List.get?_append_right (le_of_eq hj2.symm)] at hp
          have hz : j + 1 - st.history.length = 0 := by omega
          rw [hz] at hp
          have hp' : (backtestStep env data i t st).currentPortfolio = p :=
            Option.some.inj hp
          rw [List.get?_append (by omega)] at hq
          have hji : j = i := by omega
          have hl := hlast
          rw [List.getLast?_eq_get?, hlen, Nat.add_sub_cancel] at hl
          rw [hji] at hq
          have hqc : st.currentPortfolio = q := Option.some.inj (hl.symm.trans hq)
          rw [← hp', ← hqc, hji]
          rfl
        · have hnone : (st.history ++
              [(backtestStep env data i t st).currentPortfolio]).get? (j + 1) =
              none := by
            apply List.get?_eq_none.mpr
            rw [List.length_append]
            simp only [List.length_singleton]
            omega
          rw [hnone] at hp
          exact Option.noConfusion hp
    exact ih (i + 1) (backtestStep env data i t st) h1 h2 h3

/-- C4 (amended): for every run, every appended snapshot's `totalValue`
equals the sum, over the *previous* snapshot's allocation entries, of
`allocation[asset] · close` of the bar whose timestamp is exactly the `j`-th
entry of the global timeline `getTimeRange(0, Date.now())` (assets with no
bar exactly there contribute 0 — prices are matched exactly, not carried
forward, and the pricing timeline is bounded by the ambient wall clock, not
by the backtest window). -/
theorem snapshot_value_step_amended {I : Type} (env : BacktestEnv I)
    (data : List (String × List MarketData)) (init : PortfolioAnalysis)
    (startDate endDate : ℤ) (j : ℕ) (p q : PortfolioAnalysis)
    (hp : (runBacktestState env data init startDate endDate).history.get? (j + 1) =
      some p)
    (hq : (runBacktestState env data init startDate endDate).history.get? j =
      some q) :
    p.totalValue = calculateTotalValue data env.now j q.assetAllocation := by
  refine runBacktestLoop_history_inv env data
    (getTimeRange data startDate endDate) 0
    { currentPortfolio := init, trades := [], history := [init] }
    (by rfl) (by rfl) ?_ j p q hp hq
  intro j p q hp _
  have hnone : ([init] : List PortfolioAnalysis).get? (j + 1) = none := by
    apply List.get?_eq_none.mpr
    simp
  rw [hnone] at hp
  exact Option.noConfusion hp

/-- The C4 environment: fixed wall clock 10, inert collaborators. -/
def cexEnvC4 : BacktestEnv Unit :=
  { analyze := fun _ _ => none
    canOpenPosition := fun _ _ _ => true
    tradeId := ""
    now := 10
    sqrtFn := fun _ => 0
    day := fun t => t
    startTime := 0 }

/-- Asset A has a bar only at time 1 (close 2); asset B has bars at times 1
and 2 (closes 3 and 5). -/
def cexDataC4 : List (String × List MarketData) :=
  [("A", [⟨1, 0, 0, 0, 2, 0⟩]),
   ("B", [⟨1, 0, 0, 0, 3, 0⟩, ⟨2, 0, 0, 0, 5, 0⟩])]

/-- Initial snapshot: one unit of each asset. -/
def cexInitC4 : PortfolioAnalysis := ⟨0, 5, [("A", 1), ("B", 1)], 0, []⟩

/-- The snapshot the run appends at time 1. -/
def cexSnap1C4 : PortfolioAnalysis :=
  ⟨1, 5, [("A", 2 / 5), ("B", 3 / 5)], 0, []⟩

/-- The snapshot the run appends at time 2: A has no bar at time 2, so it
contributes nothing and is dropped from the allocation. -/
def cexSnap2C4 : PortfolioAnalysis := ⟨2, 3, [("B", 1)], 0, []⟩

/-- A default snapshot for total list accessors. -/
def dummyPortfolio : PortfolioAnalysis := ⟨0, 0, [], 0, []⟩

/-- The C4 run appends exactly the two snapshots above. -/
theorem cexHistoryC4 :
    (runBacktestState cexEnvC4 cexDataC4 cexInitC4 1 2).history =
      [cexInitC4, cexSnap1C4, cexSnap2C4] := by
  have ht : getTimeRange cexDataC4 1 2 = [1, 2] := by
    simp [getTimeRange, cexDataC4, List.insertionSort, List.orderedInsert]
  have ht10 : getTimeRange cexDataC4 0 10 = [1, 2] := by
    simp [getTimeRange, cexDataC4, List.insertionSort, List.orderedInsert]
  have hlkA : cexDataC4.lookup "A" = some [⟨1, 0, 0, 0, 2, 0⟩] := by rfl
  have hlkB : cexDataC4.lookup "B" =
      some [⟨1, 0, 0, 0, 3, 0⟩, ⟨2, 0, 0, 0, 5, 0⟩] := by rfl
  have hA0 : getCurrentData cexDataC4 10 0 "A" = some ⟨1, 0, 0, 0, 2, 0⟩ := by
    unfold getCurrentData
    rw [hlkA, ht10]
    rfl
  have hB0 : getCurrentData cexDataC4 10 0 "B" = some ⟨1, 0, 0, 0, 3, 0⟩ := by
    unfold getCurrentData
    rw [hlkB, ht10]
    rfl
  have hA1 : getCurrentData cexDataC4 10 1 "A" = none := by
    unfold getCurrentData
    rw [hlkA, ht10]
    rfl
  have hB1 : getCurrentData cexDataC4 10 1 "B" = some ⟨2, 0, 0, 0, 5, 0⟩ := by
    unfold getCurrentData
    rw [hlkB, ht10]
    rfl
  unfold runBacktestState
  rw [ht, runBacktestLoop, runBacktestLoop, runBacktestLoop]
  simp [backtestStep, calculateTotalValue, calculateAssetAllocation,
    cexEnvC4, cexInitC4, cexSnap1C4, cexSnap2C4, hA0, hB0, hA1, hB1]
  norm_num

/-- C4 (counterexample): in the C4 run, the snapshot appended at time 2 has
`totalValue = 3`, but the claim's formula — the snapshot's own allocation
priced by carry-forward from the most recent bar at or before the snapshot
time — gives `1 · 5 = 5`:  the code prices by exact timestamp match against
the previous allocation, so A's carried-forward price never contributes. -/
theorem snapshot_value_carryforward_cex :
    ((runBacktestState cexEnvC4 cexDataC4 cexInitC4 1 2).history.getLastD
      dummyPortfolio).totalValue = 3 ∧
    claimSnapshotValue cexDataC4
      ((runBacktestState cexEnvC4 cexDataC4 cexInitC4 1 2).history.getLastD
        dummyPortfolio) = 5 ∧
    (3 : ℚ) ≠ 5 := by
  rw [cexHistoryC4]
  refine ⟨by simp [List.getLastD, cexSnap2C4], ?_, by norm_num⟩
  have hcp : carriedPrice cexDataC4 "B" 2 = 5 := by rfl
  simp [List.getLastD, cexSnap2C4, claimSnapshotValue, hcp]

/-- Witness for `snapshot_value_step_amended` at the C4 run, step 0. -/
theorem snapshot_value_step_amended_witness :
    (runBacktestState cexEnvC4 cexDataC4 cexInitC4 1 2).history.get? 1 =
      some cexSnap1C4 ∧
    (runBacktestState cexEnvC4 cexDataC4 cexInitC4 1 2).history.get? 0 =
      some cexInitC4 ∧
    cexSnap1C4.totalValue =
      calculateTotalValue cexDataC4 cexEnvC4.now 0 cexInitC4.assetAllocation := by
  have h1 : (runBacktestState cexEnvC4 cexDataC4 cexInitC4 1 2).history.get? 1 =
      some cexSnap1C4 := by
    rw [cexHistoryC4]
    rfl
  have h0 : (runBacktestState cexEnvC4 cexDataC4 cexInitC4 1 2).history.get? 0 =
      some cexInitC4 := by
    rw [cexHistoryC4]
    rfl
  exact ⟨h1, h0,
    snapshot_value_step_amended cexEnvC4 cexDataC4 cexInitC4 1 2 0
      cexSnap1C4 cexInitC4 h1 h0⟩

/-! ## C8: the rebalancer -/

/-- With distinct keys, `lookup` retrieves exactly a member entry. -/
theorem lookup_eq_of_nodup {β : Type} :
    ∀ (l : List (String × β)) (a : String) (b : β),
      (l.map Prod.fst).Nodup → (a, b) ∈ l → l.lookup a = some b := by
  intro l
  induction l with
  | nil => intro a b _ h; cases h
  | cons p rest ih =>
    intro a b hnd hmem
    obtain ⟨k, v⟩ := p
    rw [List.map_cons, List.nodup_cons] at hnd
    rcases List.mem_cons.mp hmem with h | h
    · rw [Prod.mk.injEq] at h
      rw [← h.1, ← h.2]
      simp [List.lookup]
    · have hne : a ≠ k := by
        intro he
        exact hnd.1 (he ▸ List.mem_map.mpr ⟨(a, b), h, rfl⟩)
      have hbeq : (a == k) = false := beq_eq_false_iff_ne.mpr hne
      simp only [List.lookup, hbeq]
      exact ih a b hnd.2 h

/-- What claim C8 asserts of every emitted trade (besides the ordering):
it belongs to a target asset past the threshold, and is sized to close the
value gap at the estimated price, buying exactly when the gap is
positive. -/
def rebalanceTradeSpec (s : RebalancerState) (t : Trade) : Prop :=
  t.price = estimatePrice t.asset (s.marketInsights.lookup t.asset) ∧
  t.amount = |(s.portfolio.totalValue * (s.targetAllocation.lookup t.asset).getD 0 -
    (s.portfolio.assetAllocation.lookup t.asset).getD 0) / t.price| ∧
  (t.type = TradeType.buy ↔
    0 < s.portfolio.totalValue * (s.targetAllocation.lookup t.asset).getD 0 -
      (s.portfolio.assetAllocation.lookup t.asset).getD 0) ∧
  t.asset ∈ s.targetAllocation.map Prod.fst ∧
  s.rebalanceThreshold < |calculateDeviation s t.asset|

/-- The trade-generating pass of `optimizePortfolio`, over any suffix of the
target allocation: it emits the assets whose deviation exceeds the
threshold, in order, and every emitted trade satisfies
`rebalanceTradeSpec`. -/
theorem rebalance_pre_spec (idGen : ℕ → String) (now : ℤ) (s : RebalancerState)
    (hθ : 0 ≤ s.rebalanceThreshold) :
    ∀ (l : List (String × ℚ)) (n : ℕ),
      (∀ p ∈ l, s.targetAllocation.lookup p.1 = some p.2) →
      (∀ p ∈ l, p ∈ s.targetAllocation) →
      (∀ p ∈ l, s.portfolio.totalValue * p.2 ≠ 0) →
      (((l.map (deviationEntry s)).enumFrom n).filterMap
          (rebalanceTrade idGen now s)).map (fun t => t.asset) =
        (l.map Prod.fst).filter
          (fun a => decide (s.rebalanceThreshold < |calculateDeviation s a|)) ∧
      ∀ t ∈ ((l.map (deviationEntry s)).enumFrom n).filterMap
          (rebalanceTrade idGen now s), rebalanceTradeSpec s t := by
  intro l
  induction l with
  | nil =>
    intro n _ _ _
    exact ⟨rfl, by intro t ht; cases ht⟩
  | cons p rest ih =>
    intro n hlk hsub htv
    obtain ⟨a, w⟩ := p
    have hlka : s.targetAllocation.lookup a = some w :=
      hlk _ (List.mem_cons_self _ _)
    have htva : s.portfolio.totalValue * w ≠ 0 :=
      htv _ (List.mem_cons_self _ _)
    have hdev : ((s.portfolio.assetAllocation.lookup a).getD 0 -
        s.portfolio.totalValue * w) / (s.portfolio.totalValue * w) =
        calculateDeviation s a := by
      unfold calculateDeviation
      rw [hlka]
      rfl
    obtain ⟨ih1, ih2⟩ := ih (n + 1)
      (fun q hq => hlk q (List.mem_cons_of_mem _ hq))
      (fun q hq => hsub q (List.mem_cons_of_mem _ hq))
      (fun q hq => htv q (List.mem_cons_of_mem _ hq))
    rw [List.map_cons, List.enumFrom_cons]
    by_cases hcond : s.rebalanceThreshold < |calculateDeviation s a|
    · have hvd : s.portfolio.totalValue * w -
          (s.portfolio.assetAllocation.lookup a).getD 0 ≠ 0 := by
        intro h0
        have hz : calculateDeviation s a = 0 := by
          rw [← hdev]
          have : (s.portfolio.assetAllocation.lookup a).getD 0 -
              s.portfolio.totalValue * w = 0 := by linarith
          rw [this, zero_div]
        rw [hz, abs_zero] at hcond
        exact absurd hcond (not_lt.mpr hθ)
      have hgsome : rebalanceTrade idGen now s (n, deviationEntry s (a, w)) =
          some { id := idGen n
                 asset := a
                 type := if 0 < s.portfolio.totalValue * w -
                     (s.portfolio.assetAllocation.lookup a).getD 0
                   then TradeType.buy else TradeType.sell
                 amount := |(s.portfolio.totalValue * w -
                     (s.portfolio.assetAllocation.lookup a).getD 0) /
                   estimatePrice a (s.marketInsights.lookup a)|
                 price := estimatePrice a (s.marketInsights.lookup a)
                 timestamp := now
                 strategy := "portfolio_optimization"
                 execution := "rebalancing" } := by
        simp only [rebalanceTrade, deviationEntry]
        rw [hdev, if_pos hcond, if_pos hvd]
      have hdec : decide (s.rebalanceThreshold < |calculateDeviation s a|) = true :=
        decide_eq_true hcond
      rw [List.filterMap_cons_some hgsome, List.map_cons, List.map_cons, ih1,
        List.filter_cons, hdec, if_pos rfl]
      refine ⟨rfl, ?_⟩
      intro t ht
      rcases List.mem_cons.mp ht with h | h
      · subst h
        refine ⟨rfl, ?_, ?_, ?_, ?_⟩
        · show |(s.portfolio.totalValue * w -
              (s.portfolio.assetAllocation.lookup a).getD 0) /
            estimatePrice a (s.marketInsights.lookup a)| = _
          rw [hlka]
          rfl
        · show (if 0 < s.portfolio.totalValue * w -
              (s.portfolio.assetAllocation.lookup a).getD 0
            then TradeType.buy else TradeType.sell) = TradeType.buy ↔ _
          rw [hlka]
          by_cases hpos : 0 < s.portfolio.totalValue * w -
              (s.portfolio.assetAllocation.lookup a).getD 0
          · simp [hpos]
          · simp only [if_neg hpos]
            constructor
            · intro hcontra
              exact TradeType.noConfusion hcontra
            · intro hcontra
              exact absurd hcontra hpos
        · exact List.mem_map.mpr ⟨(a, w), hsub _ (List.mem_cons_self _ _), rfl⟩
        · exact hcond
      · exact ih2 t h
    · have hgnone : rebalanceTrade idGen now s (n, deviationEntry s (a, w)) =
          none := by
        simp only [rebalanceTrade, deviationEntry]
        rw [hdev, if_neg hcond]
      have hdec : decide (s.rebalanceThreshold < |calculateDeviation s a|) = false :=
        decide_eq_false hcond
      rw [List.filterMap_cons_none hgnone, List.map_cons, List.filter_cons, hdec,
        if_neg Bool.false_ne_true, ih1]
      exact ⟨rfl, ih2⟩

/-- C8 (amended): for a nonnegative threshold, distinct target keys and
nonzero target values, the rebalancer emits exactly one trade for every
target asset whose deviation `(currentValue − targetValue) / targetValue`
exceeds the threshold in absolute value (and no others), each sized to close
the value gap at the estimated price (buy exactly when the gap is positive),
and orders the emitted trades by descending priority `|deviation| ×
trend-adjustment`, where the adjustment multiplies by the confidence when
bullish, by `1 − confidence` when bearish, by `0.5` when the insight is
neutral — and leaves the deviation unadjusted when the insight is absent. -/
theorem rebalancer_trades_amended (idGen : ℕ → String) (now : ℤ)
    (s : RebalancerState) (hθ : 0 ≤ s.rebalanceThreshold)
    (hkeys : (s.targetAllocation.map Prod.fst).Nodup)
    (htv : ∀ p ∈ s.targetAllocation, s.portfolio.totalValue * p.2 ≠ 0) :
    ((optimizePortfolio idGen now s).map (fun t => t.asset)).Perm
      ((s.targetAllocation.map Prod.fst).filter
        (fun a => decide (s.rebalanceThreshold < |calculateDeviation s a|))) ∧
    ((optimizePortfolio idGen now s).map (fun t => t.asset)).Nodup ∧
    (∀ t ∈ optimizePortfolio idGen now s, rebalanceTradeSpec s t) ∧
    (optimizePortfolio idGen now s).Pairwise
      (fun a b => tradePriority s b ≤ tradePriority s a) := by
  have hlkAll : ∀ p ∈ s.targetAllocation,
      s.targetAllocation.lookup p.1 = some p.2 := by
    intro p hp
    exact lookup_eq_of_nodup _ p.1 p.2 hkeys (by rw [Prod.mk.eta]; exact hp)
  obtain ⟨h1, h2⟩ := rebalance_pre_spec idGen now s hθ s.targetAllocation 0
    hlkAll (fun p hp => hp) htv
  have hperm : (optimizePortfolio idGen now s).Perm
      (((s.targetAllocation.map (deviationEntry s)).enumFrom 0).filterMap
        (rebalanceTrade idGen now s)) :=
    List.perm_insertionSort _ _
  refine ⟨?_, ?_, ?_, ?_⟩
  · rw [← h1]
    exact hperm.map _
  · rw [(hperm.map (fun t => t.asset)).nodup_iff, h1]
    exact List.Nodup.filter _ hkeys
  · intro t ht
    exact h2 t (hperm.mem_iff.mp ht)
  · haveI : IsTotal Trade (fun a b => tradePriority s b ≤ tradePriority s a) :=
      ⟨fun a b => le_total _ _⟩
    haveI : IsTrans Trade (fun a b => tradePriority s b ≤ tradePriority s a) :=
      ⟨fun a b c hab hbc => le_trans hbc hab⟩
    exact List.sorted_insertionSort _ _

/-- The C8 counterexample state: A holds value 8 against a target of 5 with
no insight; B holds 5/2 against a target of 5 with a bullish insight of
confidence 0.9. -/
def cexRebState : RebalancerState :=
  { portfolio := ⟨0, 10, [("A", 8), ("B", 5 / 2)], 0, []⟩
    marketInsights := [("B", ⟨Trend.bullish, 9 / 10⟩)]
    targetAllocation := [("A", 1 / 2), ("B", 1 / 2)]
    rebalanceThreshold := 1 / 10 }

/-- The sell trade the rebalancer emits for A. -/
def cexTradeA : Trade :=
  ⟨"t", "A", .sell, 3, 1, 0, "portfolio_optimization", "rebalancing"⟩

/-- The buy trade the rebalancer emits for B. -/
def cexTradeB : Trade :=
  ⟨"t", "B", .buy, 5 / 2, 1, 0, "portfolio_optimization", "rebalancing"⟩

/-- Evaluating the rebalancer on the C8 state: A's unadjusted priority 3/5
beats B's bullish-adjusted 9/20, so the sell on A comes first. -/
theorem cexRebOutput :
    optimizePortfolio (fun _ => "t") 0 cexRebState = [cexTradeA, cexTradeB] := by
  have hAB : (("A" : String) == "B") = false := by rfl
  have hBA : (("B" : String) == "A") = false := by rfl
  have hprA : tradePriority cexRebState cexTradeA = 3 / 5 := by
    norm_num [tradePriority, calculateTradePriority, calculateDeviation,
      cexRebState, cexTradeA, List.lookup, hAB, hBA]
  have hprB : tradePriority cexRebState cexTradeB = 9 / 20 := by
    norm_num [tradePriority, calculateTradePriority, calculateDeviation,
      cexRebState, cexTradeB, List.lookup, hAB, hBA, abs_neg,
      abs_of_nonneg]
  have hpre : ((rebalanceDeviations cexRebState).enum.filterMap
      (rebalanceTrade (fun _ => "t") 0 cexRebState)) = [cexTradeA, cexTradeB] := by
    norm_num [rebalanceDeviations, deviationEntry, rebalanceTrade,
      estimatePrice, cexRebState, cexTradeA, cexTradeB, List.lookup,
      List.enum, List.enumFrom, List.filterMap_cons, hAB, hBA, abs_neg,
      abs_of_nonneg]
  show optimizeTradeSequence cexRebState _ = _
  rw [hpre]
  norm_num [optimizeTradeSequence, List.insertionSort, List.orderedInsert,
    hprA, hprB]

/-- C8 (counterexample): the emitted sequence `[sell A, buy B]` is not in
descending order of the claim's priority (which halves A's deviation for the
absent insight): the first trade's claim-priority 3/10 is below the second's
9/20. -/
theorem rebalancer_priority_cex :
    (optimizePortfolio (fun _ => "t") 0 cexRebState).map (fun t => t.asset) =
      ["A", "B"] ∧
    ¬ (optimizePortfolio (fun _ => "t") 0 cexRebState).Pairwise
      (fun a b => claimPriorityOf cexRebState b ≤ claimPriorityOf cexRebState a) := by
  rw [cexRebOutput]
  refine ⟨rfl, ?_⟩
  intro hp
  have h := (List.pairwise_cons.mp hp).1 cexTradeB (List.mem_singleton_self _)
  have hAB : (("A" : String) == "B") = false := by rfl
  have hBA : (("B" : String) == "A") = false := by rfl
  have hA : claimPriorityOf cexRebState cexTradeA = 3 / 10 := by
    norm_num [claimPriorityOf, claimTradePriority, calculateDeviation,
      cexRebState, cexTradeA, List.lookup, hAB, hBA, abs_neg, abs_of_nonneg]
  have hB : claimPriorityOf cexRebState cexTradeB = 9 / 20 := by
    norm_num [claimPriorityOf, claimTradePriority, calculateDeviation,
      cexRebState, cexTradeB, List.lookup, hAB, hBA, abs_neg, abs_of_nonneg]
  rw [hA, hB] at h
  norm_num at h

/-- The spec §8 rebalancing scenario: all of BTC, target 50/50 BTC/ETH. -/
def witRebState : RebalancerState :=
  { portfolio := ⟨0, 100, [("BTC", 100)], 0, []⟩
    marketInsights := []
    targetAllocation := [("BTC", 1 / 2), ("ETH", 1 / 2)]
    rebalanceThreshold := 1 / 10 }

/-- Witness for `rebalancer_trades_amended` on the spec §8 scenario. -/
theorem rebalancer_trades_amended_witness :
    ((0 : ℚ) ≤ witRebState.rebalanceThreshold ∧
      (witRebState.targetAllocation.map Prod.fst).Nodup) ∧
    (((optimizePortfolio (fun _ => "w") 0 witRebState).map (fun t => t.asset)).Perm
      ((witRebState.targetAllocation.map Prod.fst).filter
        (fun a => decide (witRebState.rebalanceThreshold <
          |calculateDeviation witRebState a|))) ∧
    ((optimizePortfolio (fun _ => "w") 0 witRebState).map (fun t => t.asset)).Nodup ∧
    (∀ t ∈ optimizePortfolio (fun _ => "w") 0 witRebState,
      rebalanceTradeSpec witRebState t) ∧
    (optimizePortfolio (fun _ => "w") 0 witRebState).Pairwise
      (fun a b => tradePriority witRebState b ≤ tradePriority witRebState a)) := by
  refine ⟨⟨by norm_num [witRebState], by decide⟩, ?_⟩
  apply rebalancer_trades_amended (fun _ => "w") 0 witRebState
  · norm_num [witRebState]
  · decide
  · intro p hp
    simp only [witRebState, List.mem_cons, List.not_mem_nil, or_false] at hp
    rcases hp with h | h <;> rw [h] <;> norm_num [witRebState]
